import Mathlib

/-!
Verification development for the bug-fix-verification-agent repository.

Shallow embedding of the fix-and-verify orchestration pipeline:
  - `src/unnamed/part_008` (bug-fixer): `analyzeRelevantFiles`, `parseFixResponse`
    (change construction), `generateSimpleDiff`, `applyFix`, `rollbackFix`;
  - `src/unnamed/part_009` (verification-pipeline): `runVerificationPipeline`
    with its self-healing while-loop;
  - `src/unnamed/part_011` (test-runner): `runTests` / `startDevServer` /
    `waitForServer` process lifecycle;
  - `src/src/lib/test-generator.ts` (orchestrator): `runFixAndVerifyPipeline`.

The workspace filesystem is modelled as a partial map from (already resolved,
absolute) path strings to file contents.  External services (Anthropic calls,
the Playwright process, the dev server) are modelled as environments that
supply the outcome of each call; the embedded control flow around those calls
follows the source line by line.
-/

namespace BugFixAgent

/-- A filesystem: absolute path → content of the file, `none` when the file
does not exist.  Directories are not modelled separately (the source only
creates parent directories before writes, which has no observable effect on
file contents). -/
def Fs : Type := String → Option String

/-- Model of `fs.writeFileSync(p, c)`. -/
def fsWrite (σ : Fs) (p c : String) : Fs :=
  fun q => if q = p then some c else σ q

/-- Model of `fs.unlinkSync(p)`. -/
def fsErase (σ : Fs) (p : String) : Fs :=
  fun q => if q = p then none else σ q

@[simp] theorem fsWrite_self (σ : Fs) (p c : String) : fsWrite σ p c p = some c := by
  simp [fsWrite]

@[simp] theorem fsWrite_other (σ : Fs) (p c q : String) (h : q ≠ p) :
    fsWrite σ p c q = σ q := by
  simp [fsWrite, h]

@[simp] theorem fsErase_self (σ : Fs) (p : String) : fsErase σ p p = none := by
  simp [fsErase]

@[simp] theorem fsErase_other (σ : Fs) (p q : String) (h : q ≠ p) :
    fsErase σ p q = σ q := by
  simp [fsErase, h]

/-! ### Data model (part_008, interfaces section, lines 340-374) -/

/-- One proposed edit (`FileChange` interface).  `filePath` is the absolute
path (the source resolves it against the workspace root; paths in the model
are taken to be already resolved). -/
structure FileChange where
  filePath : String
  relativePath : String
  originalContent : String
  modifiedContent : String
  diff : String
deriving DecidableEq, Repr

/-- Output of one fix-generation call (`FixResult` interface). -/
structure FixResult where
  changes : List FileChange
  explanation : String
  approach : String
deriving DecidableEq, Repr

/-- One entry of a backup set (element type of `FixBackup.files`). -/
structure BackupFile where
  filePath : String
  originalContent : String
deriving DecidableEq, Repr

/-- A backup set (`FixBackup` interface).  `originalContent = ""` is the
sentinel the source uses for "file did not exist". -/
structure FixBackup where
  timestamp : Nat
  files : List BackupFile
deriving DecidableEq, Repr

/-! ### applyFix (part_008, lines 764-797) -/

/-- One iteration of the `for (const change of fixResult.changes)` loop in
`applyFix`: push a backup entry recording the current content (the empty
string when `fs.existsSync` is false), then write `modifiedContent`. -/
def applyFixStep (acc : List BackupFile × Fs) (change : FileChange) : List BackupFile × Fs :=
  let orig : String :=
    match acc.2 change.filePath with
    | some c => c
    | none => ""
  (acc.1 ++ [⟨change.filePath, orig⟩], fsWrite acc.2 change.filePath change.modifiedContent)

/-- Model of `applyFix` (part_008, lines 764-797).  `now` stands for
`Date.now()`.  Returns the backup together with the filesystem after all
writes. -/
def applyFix (now : Nat) (fixResult : FixResult) (σ : Fs) : FixBackup × Fs :=
  let acc := fixResult.changes.foldl applyFixStep ([], σ)
  (⟨now, acc.1⟩, acc.2)

/-- Filesystem state left behind when `applyFix` throws while performing the
write of the change at index `k` (all earlier changes have been backed up and
written; the backup list built so far is lost with the exception, because the
caller's `backup` variable is never assigned). -/
def applyFixPartial (fixResult : FixResult) (k : Nat) (σ : Fs) : Fs :=
  ((fixResult.changes.take k).foldl applyFixStep ([], σ)).2

/-! ### rollbackFix (part_008, lines 801-812) -/

/-- One iteration of the `for (const file of backup.files)` loop in
`rollbackFix`: on the `""` sentinel delete the file if it exists, otherwise
overwrite it with the recorded original content. -/
def rollbackStep (σ : Fs) (file : BackupFile) : Fs :=
  if file.originalContent = "" then
    match σ file.filePath with
    | some _ => fsErase σ file.filePath
    | none => σ
  else
    fsWrite σ file.filePath file.originalContent

/-- Model of `rollbackFix` (part_008, lines 801-812).  The `_config`
parameter of the source is unused there and omitted here. -/
def rollbackFix (backup : FixBackup) (σ : Fs) : Fs :=
  backup.files.foldl rollbackStep σ

/-! ### Pointwise characterisation of rollback -/

/-- The value rollback assigns at path `p`: the last backup entry for `p`
wins (deletion for the sentinel, the recorded content otherwise); paths
without an entry keep their incoming value `v`. -/
def rollbackValue (files : List BackupFile) (p : String) (v : Option String) : Option String :=
  files.foldl
    (fun acc f =>
      if f.filePath = p then
        (if f.originalContent = "" then none else some f.originalContent)
      else acc)
    v

theorem rollbackStep_apply (σ : Fs) (f : BackupFile) (p : String) :
    rollbackStep σ f p =
      if f.filePath = p then
        (if f.originalContent = "" then none else some f.originalContent)
      else σ p := by
  unfold rollbackStep
  by_cases hs : f.originalContent = ""
  · by_cases hp : f.filePath = p
    · subst hp
      cases h : σ f.filePath <;> simp [hs, h, fsErase]
    · cases h : σ f.filePath <;> simp [hs, h, fsErase, Ne.symm hp, hp]
  · by_cases hp : f.filePath = p
    · subst hp; simp [hs, fsWrite]
    · simp [hs, fsWrite, Ne.symm hp, hp]

theorem rollbackFix_apply (files : List BackupFile) (t : Nat) (σ : Fs) (p : String) :
    rollbackFix ⟨t, files⟩ σ p = rollbackValue files p (σ p) := by
  induction files generalizing σ with
  | nil => rfl
  | cons f fs ih =>
    have h1 : rollbackFix ⟨t, f :: fs⟩ σ = rollbackFix ⟨t, fs⟩ (rollbackStep σ f) := rfl
    have h2 : rollbackValue fs p (rollbackStep σ f p) = rollbackValue (f :: fs) p (σ p) := by
      rw [rollbackStep_apply]; rfl
    rw [h1, ih]; exact h2

/-- The rollback value does not depend on the incoming value once some entry
mentions `p`. -/
theorem rollbackValue_mem (files : List BackupFile) (p : String) (v w : Option String)
    (h : ∃ f ∈ files, f.filePath = p) :
    rollbackValue files p v = rollbackValue files p w := by
  induction files generalizing v w with
  | nil => exact absurd h (by simp)
  | cons f fs ih =>
    unfold rollbackValue
    simp only [List.foldl_cons]
    by_cases hp : f.filePath = p
    · by_cases hs : f.originalContent = "" <;> simp [hp, hs]
    · rcases h with ⟨g, hg, hgp⟩
      rcases List.mem_cons.mp hg with rfl | hg'
      · exact absurd hgp hp
      · simp only [if_neg hp]
        exact ih v w ⟨g, hg', hgp⟩

/-- Paths with no backup entry are untouched by rollback. -/
theorem rollbackValue_not_mem (files : List BackupFile) (p : String) (v : Option String)
    (h : ∀ f ∈ files, f.filePath ≠ p) :
    rollbackValue files p v = v := by
  induction files generalizing v with
  | nil => rfl
  | cons f fs ih =>
    unfold rollbackValue
    simp only [List.foldl_cons]
    rw [if_neg (h f (by simp))]
    exact ih v (fun g hg => h g (List.mem_cons_of_mem f hg))

/-! ### Structural characterisation of applyFix -/

/-- The backup entries `applyFix` pushes, change by change (the content seen
by the `i`-th backup read is the state after the first `i` writes). -/
def applyBackups (cs : List FileChange) (σ : Fs) : List BackupFile :=
  match cs with
  | [] => []
  | c :: rest =>
    ⟨c.filePath, (σ c.filePath).getD ""⟩ ::
      applyBackups rest (fsWrite σ c.filePath c.modifiedContent)

/-- The filesystem after `applyFix` has performed all of its writes. -/
def applyState (cs : List FileChange) (σ : Fs) : Fs :=
  match cs with
  | [] => σ
  | c :: rest => applyState rest (fsWrite σ c.filePath c.modifiedContent)

theorem applyFix_foldl (cs : List FileChange) (bs : List BackupFile) (σ : Fs) :
    cs.foldl applyFixStep (bs, σ) = (bs ++ applyBackups cs σ, applyState cs σ) := by
  induction cs generalizing bs σ with
  | nil => simp [applyBackups, applyState]
  | cons c rest ih =>
    simp only [List.foldl_cons]
    have hstep : applyFixStep (bs, σ) c =
        (bs ++ [⟨c.filePath, (σ c.filePath).getD ""⟩], fsWrite σ c.filePath c.modifiedContent) := by
      unfold applyFixStep
      cases h : σ c.filePath <;> simp [h, Option.getD]
    rw [hstep, ih]
    simp [applyBackups, applyState]

theorem applyFix_eq (now : Nat) (fixResult : FixResult) (σ : Fs) :
    applyFix now fixResult σ =
      (⟨now, applyBackups fixResult.changes σ⟩, applyState fixResult.changes σ) := by
  unfold applyFix
  rw [applyFix_foldl]
  rfl

theorem applyBackups_paths (cs : List FileChange) (σ : Fs) :
    (applyBackups cs σ).map (·.filePath) = cs.map (·.filePath) := by
  induction cs generalizing σ with
  | nil => rfl
  | cons c rest ih => simp [applyBackups, ih]

/-- Core restoration lemma: rolling back the backup set produced while
applying `cs` restores the original value at every path, provided the change
paths are pairwise distinct and no target file pre-exists with empty content
(the source's `""` sentinel would then delete it instead of restoring it). -/
theorem applyBackups_rollbackValue (cs : List FileChange) (σ : Fs) (p : String)
    (hnodup : (cs.map (·.filePath)).Nodup)
    (hne : ∀ c ∈ cs, σ c.filePath ≠ some "") :
    rollbackValue (applyBackups cs σ) p (applyState cs σ p) = σ p := by
  induction cs generalizing σ with
  | nil => rfl
  | cons c rest ih =>
    have hnotin : c.filePath ∉ rest.map (·.filePath) := (List.nodup_cons.mp hnodup).1
    have hnodup' : (rest.map (·.filePath)).Nodup := (List.nodup_cons.mp hnodup).2
    set σ2 : Fs := fsWrite σ c.filePath c.modifiedContent with hσ2
    have hcons : rollbackValue (applyBackups (c :: rest) σ) p (applyState (c :: rest) σ p) =
        rollbackValue (applyBackups rest σ2)
          p
          (if c.filePath = p then
            (if (σ c.filePath).getD "" = "" then none else some ((σ c.filePath).getD ""))
          else applyState rest σ2 p) := rfl
    rw [hcons]
    by_cases hp : c.filePath = p
    · subst hp
      have hrest : ∀ f ∈ applyBackups rest σ2, f.filePath ≠ c.filePath := by
        intro f hf
        have : f.filePath ∈ (applyBackups rest σ2).map (·.filePath) := List.mem_map_of_mem _ hf
        rw [applyBackups_paths] at this
        intro heq
        exact hnotin (heq ▸ this)
      rw [rollbackValue_not_mem _ _ _ hrest]
      have hcs : σ c.filePath ≠ some "" := hne c (by simp)
      cases h : σ c.filePath with
      | none => simp [h]
      | some s =>
        have hs : s ≠ "" := by
          intro hs0
          exact hcs (by rw [h, hs0])
        simp [h, hs]
    · simp only [if_neg hp]
      have hσ2p : σ2 p = σ p := by
        rw [hσ2]
        exact fsWrite_other σ _ _ _ (fun h => hp h.symm)
      rw [ih σ2 hnodup' ?_, hσ2p]
      intro c' hc'
      have hcc' : c'.filePath ≠ c.filePath := by
        intro heq
        exact hnotin (heq ▸ List.mem_map_of_mem _ hc')
      rw [hσ2, fsWrite_other σ _ _ _ hcc']
      exact hne c' (List.mem_cons_of_mem c hc')

/-! ### Concrete inputs for the apply/rollback claims -/

/-- A workspace holding a single file that exists with EMPTY content. -/
def c2fs : Fs := fun p => if p = "src/app.ts" then some "" else none

/-- A one-file fix targeting that empty file. -/
def c2fix : FixResult :=
  ⟨[⟨"src/app.ts", "src/app.ts", "", "patched", ""⟩], "fills the file", "patch"⟩

/-- A workspace holding a single file with non-empty content. -/
def c2wfs : Fs := fun p => if p = "src/app.ts" then some "old" else none

/-- A one-file fix targeting that non-empty file. -/
def c2wfix : FixResult :=
  ⟨[⟨"src/app.ts", "src/app.ts", "old", "new", ""⟩], "replaces the body", "patch"⟩

/-- C2 counterexample: a file that existed before `applyFix` with empty
content is DELETED by `rollbackFix` (the `originalContent === ""` sentinel
conflates "existed empty" with "did not exist"), so it does not regain its
pre-apply content. -/
theorem c2_apply_rollback_counterexample :
    c2fs "src/app.ts" = some "" ∧
    rollbackFix (applyFix 0 c2fix c2fs).1 (applyFix 0 c2fix c2fs).2 "src/app.ts" = none := by
  exact ⟨rfl, rfl⟩

/-- C2 (amended): for every FixResult whose change paths are pairwise
distinct and none of whose target files pre-exists with empty content,
applying the fix and then rolling back the returned backup restores the
workspace exactly — pre-existing files regain their exact content and files
that did not exist before are deleted. -/
theorem c2_apply_then_rollback_restores (now : Nat) (fixResult : FixResult) (σ : Fs)
    (hnodup : (fixResult.changes.map (·.filePath)).Nodup)
    (hne : ∀ c ∈ fixResult.changes, σ c.filePath ≠ some "") :
    rollbackFix (applyFix now fixResult σ).1 (applyFix now fixResult σ).2 = σ := by
  funext p
  rw [applyFix_eq]
  rw [rollbackFix_apply]
  exact applyBackups_rollbackValue fixResult.changes σ p hnodup hne

/-- Witness for C2 (amended) at a concrete one-file fix over a concrete
workspace. -/
theorem c2_apply_then_rollback_restores_witness :
    rollbackFix (applyFix 0 c2wfix c2wfs).1 (applyFix 0 c2wfix c2wfs).2 = c2wfs :=
  c2_apply_then_rollback_restores 0 c2wfix c2wfs (by decide) (by decide)

/-- C9: rollback is idempotent — rolling the same BackupSet back twice
produces the same filesystem state as rolling it back once (at every path,
the last entry for that path determines the final value independently of the
state rollback starts from). -/
theorem c9_rollbackFix_idempotent (backup : FixBackup) (σ : Fs) :
    rollbackFix backup (rollbackFix backup σ) = rollbackFix backup σ := by
  funext p
  obtain ⟨t, files⟩ := backup
  rw [rollbackFix_apply, rollbackFix_apply]
  by_cases h : ∃ f ∈ files, f.filePath = p
  · exact rollbackValue_mem files p _ _ h
  · push_neg at h
    rw [rollbackValue_not_mem files p _ h, rollbackValue_not_mem files p _ h]

/-! ### generateSimpleDiff (part_008, lines 705-760) -/

/-- One output line of the diff generator.  The source builds these as
strings carrying an explicit tag: hunk-body lines are built exclusively as
`" " + line` (context), `"-" + line` (deletion) and `"+" + line` (addition),
plus the two file-header lines and the `@@`-hunk headers.  The embedding
keeps the tag as data; `renderDiffLine` produces the exact source string,
and the source's `l.startsWith(' ')` test on a hunk-body line holds exactly
for `ctx` lines (the other body lines start with `-` or `+`). -/
inductive DiffLine where
  | fileHeaderA (fileName : String)
  | fileHeaderB (fileName : String)
  | hunkHeader (startLine : Int)
  | ctx (line : String)
  | del (line : String)
  | add (line : String)
deriving DecidableEq, Repr

/-- The string the source stores for each diff line. -/
def renderDiffLine : DiffLine → String
  | .fileHeaderA n => "--- a/" ++ n
  | .fileHeaderB n => "+++ b/" ++ n
  | .hunkHeader s => "@@ -" ++ toString (s + 1) ++ " +" ++ toString (s + 1) ++ " @@"
  | .ctx l => " " ++ l
  | .del l => "-" ++ l
  | .add l => "+" ++ l

/-- Test for a context line (the source's `l.startsWith(' ')`). -/
def isCtx : DiffLine → Bool
  | .ctx _ => true
  | _ => false

/-- Test for a hunk-header line (a line the source pushes as `@@ ... @@`). -/
def isHunkHeader : DiffLine → Bool
  | .hunkHeader _ => true
  | _ => false

/-- The source's `hunkLines.filter(l => l.startsWith(' ')).length`. -/
def countContext (ls : List DiffLine) : Nat := (ls.filter isCtx).length

/-- The mutable loop state of `generateSimpleDiff` (lines 713-716). -/
structure DiffState where
  diffLines : List DiffLine
  inHunk : Bool
  hunkStart : Int
  hunkLines : List DiffLine
deriving Repr

/-- The equal-lines branch while inside a hunk (lines 722-731): push one
context line, and flush the hunk once it holds 3 or more context lines.
`Option.getD "undefined"` mirrors JavaScript template interpolation of an
out-of-range index (which prints `undefined`); that branch is unreachable
for the loop's actual inputs. -/
def diffCtxPush (origLines : List String) (st : DiffState) (i : Nat) : DiffState :=
  let hl := st.hunkLines ++ [DiffLine.ctx ((origLines.get? i).getD "undefined")]
  if 3 ≤ countContext hl then
    { diffLines := st.diffLines ++ DiffLine.hunkHeader st.hunkStart :: hl,
      inHunk := false, hunkStart := st.hunkStart, hunkLines := [] }
  else
    { st with hunkLines := hl }

/-- Opening a hunk on the first differing line (lines 733-741): record the
hunk start and push at most ONE line of leading context. -/
def diffHunkOpen (origLines : List String) (st : DiffState) (i : Nat) : DiffState :=
  if st.inHunk then st
  else
    { st with
      inHunk := true,
      hunkStart := max 0 ((i : Int) - 1),
      hunkLines := st.hunkLines ++
        (if 0 < i then [DiffLine.ctx ((origLines.get? (i - 1)).getD "undefined")] else []) }

/-- The deletion/addition lines pushed for one differing index
(lines 742-749). -/
def diffChangeLines (origLine modLine : Option String) : List DiffLine :=
  match origLine, modLine with
  | some o, some m => [DiffLine.del o, DiffLine.add m]
  | some o, none => [DiffLine.del o]
  | none, some m => [DiffLine.add m]
  | none, none => []

/-- One iteration of the `for (let i = 0; i < maxLen; i++)` loop of
`generateSimpleDiff` (lines 718-751). -/
def diffStep (origLines modLines : List String) (st : DiffState) (i : Nat) : DiffState :=
  if origLines.get? i = modLines.get? i then
    if st.inHunk then diffCtxPush origLines st i else st
  else
    let st1 := diffHunkOpen origLines st i
    { st1 with hunkLines := st1.hunkLines ++ diffChangeLines (origLines.get? i) (modLines.get? i) }

/-- Helper for `splitLines`: walk the characters, cutting at every
newline. -/
def splitLinesAux : List Char → List Char → List String
  | [], acc => [String.mk acc.reverse]
  | c :: cs, acc =>
    if c = '\n' then String.mk acc.reverse :: splitLinesAux cs []
    else splitLinesAux cs (c :: acc)

/-- Model of JavaScript `s.split('\n')`: cut at every newline, keeping empty
segments (so the empty string yields `[""]` and a trailing newline yields a
trailing empty segment), exactly as the JavaScript builtin does. -/
def splitLines (s : String) : List String := splitLinesAux s.data []

/-- The loop of `generateSimpleDiff` run over all indices, from the initial
state holding the two file headers (lines 710-716). -/
def diffFold (origLines modLines : List String) (fileName : String) : DiffState :=
  (List.range (max origLines.length modLines.length)).foldl (diffStep origLines modLines)
    { diffLines := [DiffLine.fileHeaderA fileName, DiffLine.fileHeaderB fileName],
      inHunk := false, hunkStart := -1, hunkLines := [] }

/-- The full line list `generateSimpleDiff` produces: the loop's output plus
the final flush of a pending hunk (lines 753-757). -/
def generateSimpleDiffLines (fileName original modified : String) : List DiffLine :=
  let final := diffFold (splitLines original) (splitLines modified) fileName
  if 0 < final.hunkLines.length then
    final.diffLines ++ DiffLine.hunkHeader final.hunkStart :: final.hunkLines
  else
    final.diffLines

/-- Model of `generateSimpleDiff` (lines 705-760): the joined diff text. -/
def generateSimpleDiff (fileName original modified : String) : String :=
  String.intercalate "\n" ((generateSimpleDiffLines fileName original modified).map renderDiffLine)

/-! ### Change construction in parseFixResponse (part_008, lines 678-694) -/

/-- A file judged pertinent to the bug (`RelevantFile` interface,
part_008 lines 347-352). -/
structure RelevantFile where
  relativePath : String
  absolutePath : String
  content : String
  reason : String
deriving DecidableEq, Repr

/-- One entry of the parsed `changes` array of a fix-service response. -/
structure ProposedChange where
  filePath : String
  modifiedContent : String
deriving DecidableEq, Repr

/-- The `parsed.changes.map(...)` body of `parseFixResponse` (part_008,
lines 678-694): resolve `originalContent` from the known relevant files when
available (JavaScript `||` falls through both on a missing entry and on an
empty-string content), else from disk, else the empty string; then attach
the synthesized diff.  Paths are taken to be already resolved. -/
def parseFixChanges (relevantFiles : List RelevantFile) (disk : Fs)
    (proposed : List ProposedChange) : List FileChange :=
  proposed.map fun change =>
    let relativePath := change.filePath
    let absolutePath := relativePath
    let fromRelevant := (relevantFiles.find? (fun f => f.relativePath = relativePath)).map (·.content)
    let originalContent :=
      match fromRelevant with
      | some c => if c = "" then (disk absolutePath).getD "" else c
      | none => (disk absolutePath).getD ""
    { filePath := absolutePath
      relativePath := relativePath
      originalContent := originalContent
      modifiedContent := change.modifiedContent
      diff := generateSimpleDiff relativePath originalContent change.modifiedContent }

/-! ### Per-hunk context counting -/

/-- Context lines per hunk: traversing the diff lines, each `@@` header
opens a hunk, and each context line increments the open hunk's counter. -/
def hccStep (acc : List Nat × Option Nat) (l : DiffLine) : List Nat × Option Nat :=
  match l with
  | .hunkHeader _ =>
    match acc.2 with
    | some c => (acc.1 ++ [c], some 0)
    | none => (acc.1, some 0)
  | .ctx _ =>
    match acc.2 with
    | some c => (acc.1, some (c + 1))
    | none => acc
  | _ => acc

/-- Close the final (still open) hunk of a context-count traversal. -/
def finishHcc : List Nat × Option Nat → List Nat
  | (cs, some c) => cs ++ [c]
  | (cs, none) => cs

/-- The list of context-line counts of the hunks of a diff, in order. -/
def hunkContextCounts (lines : List DiffLine) : List Nat :=
  finishHcc (lines.foldl hccStep ([], none))

theorem countContext_append (a b : List DiffLine) :
    countContext (a ++ b) = countContext a + countContext b := by
  simp [countContext, List.filter_append]

theorem hccStep_body (a : List Nat) (c : Nat) (body : List DiffLine)
    (h : ∀ l ∈ body, isHunkHeader l = false) :
    body.foldl hccStep (a, some c) = (a, some (c + countContext body)) := by
  induction body generalizing c with
  | nil => simp [countContext]
  | cons l body ih =>
    have hl : isHunkHeader l = false := h l (by simp)
    have hbody : ∀ x ∈ body, isHunkHeader x = false :=
      fun x hx => h x (List.mem_cons_of_mem l hx)
    cases l with
    | hunkHeader s => simp [isHunkHeader] at hl
    | ctx s =>
      simp only [List.foldl_cons, hccStep]
      rw [ih (c + 1) hbody]
      have : countContext (DiffLine.ctx s :: body) = countContext body + 1 := by
        simp [countContext, isCtx, List.filter_cons]
      rw [this]
      congr 2
      omega
    | fileHeaderA s =>
      simp only [List.foldl_cons, hccStep]
      rw [ih c hbody]
      have : countContext (DiffLine.fileHeaderA s :: body) = countContext body := by
        simp [countContext, isCtx, List.filter_cons]
      rw [this]
    | fileHeaderB s =>
      simp only [List.foldl_cons, hccStep]
      rw [ih c hbody]
      have : countContext (DiffLine.fileHeaderB s :: body) = countContext body := by
        simp [countContext, isCtx, List.filter_cons]
      rw [this]
    | del s =>
      simp only [List.foldl_cons, hccStep]
      rw [ih c hbody]
      have : countContext (DiffLine.del s :: body) = countContext body := by
        simp [countContext, isCtx, List.filter_cons]
      rw [this]
    | add s =>
      simp only [List.foldl_cons, hccStep]
      rw [ih c hbody]
      have : countContext (DiffLine.add s :: body) = countContext body := by
        simp [countContext, isCtx, List.filter_cons]
      rw [this]

/-- Appending a freshly flushed hunk (header plus body) appends exactly one
count: the body's number of context lines. -/
theorem hunkContextCounts_flush (dl : List DiffLine) (s : Int) (body : List DiffLine)
    (h : ∀ l ∈ body, isHunkHeader l = false) :
    hunkContextCounts (dl ++ DiffLine.hunkHeader s :: body) =
      hunkContextCounts dl ++ [countContext body] := by
  unfold hunkContextCounts
  rw [List.foldl_append]
  rcases hfold : dl.foldl hccStep (([], none) : List Nat × Option Nat) with ⟨cs, cur⟩
  simp only [List.foldl_cons]
  cases cur with
  | some c =>
    have hstep : hccStep (cs, some c) (DiffLine.hunkHeader s) = (cs ++ [c], some 0) := rfl
    rw [hstep, hccStep_body (cs ++ [c]) 0 body h]
    simp [finishHcc]
  | none =>
    have hstep : hccStep (cs, none) (DiffLine.hunkHeader s) = (cs, some 0) := rfl
    rw [hstep, hccStep_body cs 0 body h]
    simp [finishHcc]

/-! ### The per-hunk context bound of the diff generator -/

/-- Invariant carried through the diff-generation loop: every flushed hunk
holds at most 3 context lines, the pending hunk holds at most 2, hunk-body
lines are never hunk headers, and the pending buffer is empty outside a
hunk. -/
def DiffInv (st : DiffState) : Prop :=
  (∀ k ∈ hunkContextCounts st.diffLines, k ≤ 3) ∧
  countContext st.hunkLines ≤ 2 ∧
  (∀ l ∈ st.hunkLines, isHunkHeader l = false) ∧
  (st.inHunk = false → st.hunkLines = [])

theorem countContext_ctx_singleton (s : String) : countContext [DiffLine.ctx s] = 1 := rfl

theorem countContext_diffChangeLines (a b : Option String) :
    countContext (diffChangeLines a b) = 0 := by
  cases a <;> cases b <;> rfl

theorem diffChangeLines_no_header (a b : Option String) :
    ∀ l ∈ diffChangeLines a b, isHunkHeader l = false := by
  cases a <;> cases b <;> simp [diffChangeLines, isHunkHeader]

theorem diffCtxPush_inv (origLines : List String) (st : DiffState) (i : Nat)
    (h : DiffInv st) (hin : st.inHunk = true) : DiffInv (diffCtxPush origLines st i) := by
  obtain ⟨h1, h2, h3, _⟩ := h
  unfold diffCtxPush
  have hcc : countContext (st.hunkLines ++ [DiffLine.ctx ((origLines.get? i).getD "undefined")]) =
      countContext st.hunkLines + 1 := by
    rw [countContext_append, countContext_ctx_singleton]
  have hnohdr : ∀ l ∈ st.hunkLines ++ [DiffLine.ctx ((origLines.get? i).getD "undefined")],
      isHunkHeader l = false := by
    intro l hl
    rcases List.mem_append.mp hl with hl' | hl'
    · exact h3 l hl'
    · rcases List.mem_singleton.mp hl' with rfl
      rfl
  by_cases h3le : 3 ≤ countContext (st.hunkLines ++ [DiffLine.ctx ((origLines.get? i).getD "undefined")])
  · rw [if_pos h3le]
    refine ⟨?_, ?_, ?_, ?_⟩
    · intro k hk
      rw [hunkContextCounts_flush _ _ _ hnohdr] at hk
      rcases List.mem_append.mp hk with hk' | hk'
      · exact h1 k hk'
      · rcases List.mem_singleton.mp hk' with rfl
        rw [hcc]
        omega
    · simp [countContext]
    · simp
    · simp
  · rw [if_neg h3le]
    refine ⟨h1, ?_, hnohdr, ?_⟩
    · rw [hcc] at h3le ⊢
      omega
    · intro hfalse
      rw [hin] at hfalse
      cases hfalse

theorem diffStep_inv (origLines modLines : List String) (st : DiffState) (i : Nat)
    (h : DiffInv st) : DiffInv (diffStep origLines modLines st i) := by
  unfold diffStep
  by_cases heq : origLines.get? i = modLines.get? i
  · rw [if_pos heq]
    by_cases hin : st.inHunk
    · rw [if_pos hin]
      exact diffCtxPush_inv origLines st i h hin
    · rw [if_neg hin]
      exact h
  · rw [if_neg heq]
    obtain ⟨h1, h2, h3, h4⟩ := h
    by_cases hin : st.inHunk
    · unfold diffHunkOpen
      rw [if_pos hin]
      dsimp only
      refine ⟨h1, ?_, ?_, ?_⟩
      · rw [countContext_append, countContext_diffChangeLines]
        omega
      · intro l hl
        rcases List.mem_append.mp hl with hl' | hl'
        · exact h3 l hl'
        · exact diffChangeLines_no_header _ _ l hl'
      · intro hfalse
        rw [hin] at hfalse
        simp at hfalse
    · unfold diffHunkOpen
      rw [if_neg hin]
      dsimp only
      have hempty : st.hunkLines = [] := h4 (by simpa using hin)
      refine ⟨h1, ?_, ?_, ?_⟩
      · rw [hempty, countContext_append, countContext_append, countContext_diffChangeLines]
        by_cases hi : 0 < i
        · rw [if_pos hi, countContext_ctx_singleton]
          simp [countContext]
        · rw [if_neg hi]
          simp [countContext]
      · intro l hl
        rw [hempty] at hl
        rcases List.mem_append.mp hl with hl' | hl'
        · rcases List.mem_append.mp hl' with hl'' | hl''
          · cases hl''
          · by_cases hi : 0 < i
            · rw [if_pos hi] at hl''
              rcases List.mem_singleton.mp hl'' with rfl
              rfl
            · rw [if_neg hi] at hl''
              cases hl''
        · exact diffChangeLines_no_header _ _ l hl'
      · intro hfalse
        cases hfalse

theorem diffFold_inv (origLines modLines : List String) (l : List Nat) (st : DiffState)
    (h : DiffInv st) : DiffInv (l.foldl (diffStep origLines modLines) st) := by
  induction l generalizing st with
  | nil => exact h
  | cons i rest ih => exact ih _ (diffStep_inv origLines modLines st i h)

/-- Every hunk of the generated diff carries at most 3 context lines in
total (at most one of them leading). -/
theorem generateSimpleDiffLines_context_bound (fileName original modified : String) :
    ∀ k ∈ hunkContextCounts (generateSimpleDiffLines fileName original modified), k ≤ 3 := by
  have hinit : DiffInv
      { diffLines := [DiffLine.fileHeaderA fileName, DiffLine.fileHeaderB fileName],
        inHunk := false, hunkStart := -1, hunkLines := [] } := by
    refine ⟨?_, ?_, ?_, ?_⟩
    · intro k hk
      have : hunkContextCounts [DiffLine.fileHeaderA fileName, DiffLine.fileHeaderB fileName]
          = [] := rfl
      rw [this] at hk
      cases hk
    · simp [countContext]
    · simp
    · intro _; rfl
  have hfin : DiffInv (diffFold (splitLines original) (splitLines modified) fileName) :=
    diffFold_inv (splitLines original) (splitLines modified)
      (List.range (max (splitLines original).length (splitLines modified).length)) _ hinit
  obtain ⟨h1, h2, h3, _⟩ := hfin
  show ∀ k ∈ hunkContextCounts
      (if 0 < (diffFold (splitLines original) (splitLines modified) fileName).hunkLines.length
      then (diffFold (splitLines original) (splitLines modified) fileName).diffLines ++
        DiffLine.hunkHeader (diffFold (splitLines original) (splitLines modified) fileName).hunkStart ::
          (diffFold (splitLines original) (splitLines modified) fileName).hunkLines
      else (diffFold (splitLines original) (splitLines modified) fileName).diffLines), k ≤ 3
  by_cases hl : 0 < (diffFold (splitLines original) (splitLines modified) fileName).hunkLines.length
  · rw [if_pos hl]
    intro k hk
    rw [hunkContextCounts_flush _ _ _ h3] at hk
    rcases List.mem_append.mp hk with hk' | hk'
    · exact h1 k hk'
    · rcases List.mem_singleton.mp hk' with rfl
      omega
  · rw [if_neg hl]
    exact h1

/-! ### C7: diff purity and context width -/

/-- Original file body for the C7 context-width counterexample. -/
def c7orig : String := "a\nb\nc\nd\ne\nf\ng\nh"

/-- Modified file body: only original line 4 (`d`) changes. -/
def c7mod : String := "a\nb\nc\nD\ne\nf\ng\nh"

/-- C7 counterexample: the single change is at original line 4, so three
context lines (`a`, `b`, `c`) are available before it, yet the generated
diff contains only ` c` as leading context and omits ` a` and ` b` — the
output does not carry 3 lines of context around the change. -/
theorem c7_three_context_counterexample :
    DiffLine.del "d" ∈ generateSimpleDiffLines "file.ts" c7orig c7mod ∧
    DiffLine.ctx "c" ∈ generateSimpleDiffLines "file.ts" c7orig c7mod ∧
    DiffLine.ctx "b" ∉ generateSimpleDiffLines "file.ts" c7orig c7mod ∧
    DiffLine.ctx "a" ∉ generateSimpleDiffLines "file.ts" c7orig c7mod := by
  decide

/-- C7 (amended): the diff stored on a FileChange is a pure deterministic
function of the stored pair — recomputing `generateSimpleDiff` from the
change's `relativePath`, `originalContent` and `modifiedContent` yields
identical output — and the output consists of unified-diff-style hunks each
containing at most 3 context lines in total (not 3 lines of context around
each change). -/
theorem c7_diff_recomputable_and_context_bound
    (relevantFiles : List RelevantFile) (disk : Fs) (proposed : List ProposedChange) :
    (∀ c ∈ parseFixChanges relevantFiles disk proposed,
      c.diff = generateSimpleDiff c.relativePath c.originalContent c.modifiedContent) ∧
    (∀ fileName original modified : String,
      ∀ k ∈ hunkContextCounts (generateSimpleDiffLines fileName original modified), k ≤ 3) := by
  constructor
  · intro c hc
    rcases List.mem_map.mp hc with ⟨p, hp, rfl⟩
    rfl
  · intro fileName original modified
    exact generateSimpleDiffLines_context_bound fileName original modified

/-- Witness for C7 (amended): the hunk produced for the counterexample pair
really reaches the context bound, and the bound holds there. -/
theorem c7_diff_recomputable_and_context_bound_witness :
    (3 : Nat) ∈ hunkContextCounts (generateSimpleDiffLines "file.ts" c7orig c7mod) ∧ (3 : Nat) ≤ 3 :=
  ⟨by decide,
    (c7_diff_recomputable_and_context_bound [] (fun _ => none) []).2 "file.ts" c7orig c7mod 3
      (by decide)⟩

/-! ### analyzeRelevantFiles (part_008, lines 442-535) -/

/-- One parsed entry of the service's suggested-files JSON array
(`{ path, reason }`). -/
structure Suggestion where
  path : String
  reason : String
deriving DecidableEq, Repr

/-- The hint-file seeding loop of `analyzeRelevantFiles` (lines 452-466):
every hint file that exists on disk is read and added, in hint order, with
reason "User-specified file"; there is no duplicate check in this loop.
Paths are taken to be already resolved. -/
def seedHintFiles (disk : Fs) : List String → List RelevantFile
  | [] => []
  | filePath :: rest =>
    match disk filePath with
    | some content =>
      ⟨filePath, filePath, content, "User-specified file"⟩ :: seedHintFiles disk rest
    | none => seedHintFiles disk rest

/-- One iteration of the `for (const suggested of suggestedFiles)` loop
(lines 511-527): add the suggestion when it exists on disk, is not already
present (by absolute path), and its content is at most 50000 characters. -/
def addSuggested (disk : Fs) (acc : List RelevantFile) (s : Suggestion) : List RelevantFile :=
  match disk s.path with
  | some content =>
    if acc.any (fun f => f.absolutePath = s.path) then acc
    else if content.length ≤ 50000 then acc ++ [⟨s.path, s.path, content, s.reason⟩]
    else acc
  | none => acc

/-- Model of `analyzeRelevantFiles` (part_008, lines 442-535).
`serviceResponse = none` models a response with no JSON array or one that
fails to parse (both fall through to returning what was gathered so far);
`some suggested` models a successfully parsed suggestion array. -/
def analyzeRelevantFiles (disk : Fs) (hintFiles : List String)
    (serviceResponse : Option (List Suggestion)) : List RelevantFile :=
  let relevantFiles := seedHintFiles disk hintFiles
  match serviceResponse with
  | none => relevantFiles
  | some suggested => suggested.foldl (addSuggested disk) relevantFiles

theorem seedHintFiles_paths (disk : Fs) (hintFiles : List String) :
    (seedHintFiles disk hintFiles).map (·.absolutePath) =
      hintFiles.filter (fun p => (disk p).isSome) := by
  induction hintFiles with
  | nil => rfl
  | cons p rest ih =>
    unfold seedHintFiles
    cases h : disk p with
    | some c => simp [List.filter_cons, h, ih]
    | none => simp [List.filter_cons, h, ih]

theorem addSuggested_none (disk : Fs) (acc : List RelevantFile) (s : Suggestion)
    (hd : disk s.path = none) : addSuggested disk acc s = acc := by
  unfold addSuggested
  rw [hd]

theorem addSuggested_some (disk : Fs) (acc : List RelevantFile) (s : Suggestion)
    (content : String) (hd : disk s.path = some content) :
    addSuggested disk acc s =
      (if acc.any (fun f => f.absolutePath = s.path) then acc
      else if content.length ≤ 50000 then acc ++ [⟨s.path, s.path, content, s.reason⟩]
      else acc) := by
  unfold addSuggested
  rw [hd]

theorem addSuggested_nodup (disk : Fs) (acc : List RelevantFile) (s : Suggestion)
    (h : (acc.map (·.absolutePath)).Nodup) :
    ((addSuggested disk acc s).map (·.absolutePath)).Nodup := by
  cases hd : disk s.path with
  | none =>
    rw [addSuggested_none disk acc s hd]
    exact h
  | some content =>
    rw [addSuggested_some disk acc s content hd]
    by_cases hany : acc.any (fun f => f.absolutePath = s.path)
    · rw [if_pos hany]
      exact h
    · rw [if_neg hany]
      by_cases hlen : content.length ≤ 50000
      · rw [if_pos hlen]
        have hnotin : s.path ∉ acc.map (·.absolutePath) := by
          intro hmem
          rcases List.mem_map.mp hmem with ⟨f, hf, hfp⟩
          exact hany (List.any_eq_true.mpr ⟨f, hf, by simp [hfp]⟩)
        rw [List.map_append]
        rw [List.nodup_append]
        refine ⟨h, by simp, ?_⟩
        intro x hx hx'
        simp at hx'
        exact hnotin (hx' ▸ hx)
      · rw [if_neg hlen]
        exact h

/-- The suggestion loop only ever appends: the final list extends the
incoming one with entries that exist on disk (content as read) and respect
the 50000-character cap, in suggestion order. -/
theorem addSuggested_foldl (disk : Fs) (suggs : List Suggestion) (acc : List RelevantFile) :
    ∃ t, suggs.foldl (addSuggested disk) acc = acc ++ t ∧
      List.Sublist (t.map (·.absolutePath)) (suggs.map (·.path)) ∧
      (∀ f ∈ t, disk f.absolutePath = some f.content ∧ f.content.length ≤ 50000) := by
  induction suggs generalizing acc with
  | nil => exact ⟨[], by simp, by simp, by simp⟩
  | cons s rest ih =>
    simp only [List.foldl_cons]
    have hskip : ∀ h : addSuggested disk acc s = acc,
        ∃ t, rest.foldl (addSuggested disk) (addSuggested disk acc s) = acc ++ t ∧
          List.Sublist (t.map (·.absolutePath)) ((s :: rest).map (·.path)) ∧
          (∀ f ∈ t, disk f.absolutePath = some f.content ∧ f.content.length ≤ 50000) := by
      intro h
      rw [h]
      rcases ih acc with ⟨t, ht, hsub, hprop⟩
      exact ⟨t, ht, hsub.cons _, hprop⟩
    cases hd : disk s.path with
    | none => exact hskip (addSuggested_none disk acc s hd)
    | some content =>
      by_cases hany : acc.any (fun f => f.absolutePath = s.path)
      · exact hskip (by rw [addSuggested_some disk acc s content hd, if_pos hany])
      · by_cases hlen : content.length ≤ 50000
        · rw [addSuggested_some disk acc s content hd, if_neg hany, if_pos hlen]
          rcases ih (acc ++ [⟨s.path, s.path, content, s.reason⟩]) with ⟨t, ht, hsub, hprop⟩
          refine ⟨⟨s.path, s.path, content, s.reason⟩ :: t, ?_, ?_, ?_⟩
          · rw [ht, List.append_assoc]
            rfl
          · simpa using hsub.cons₂ s.path
          · intro f hf
            rcases List.mem_cons.mp hf with rfl | hf'
            · exact ⟨hd, hlen⟩
            · exact hprop f hf'
        · exact hskip (by rw [addSuggested_some disk acc s content hd, if_neg hany, if_neg hlen])

theorem addSuggested_foldl_nodup (disk : Fs) (suggs : List Suggestion) (acc : List RelevantFile)
    (h : (acc.map (·.absolutePath)).Nodup) :
    ((suggs.foldl (addSuggested disk) acc).map (·.absolutePath)).Nodup := by
  induction suggs generalizing acc with
  | nil => exact h
  | cons s rest ih => exact ih _ (addSuggested_nodup disk acc s h)

/-! ### C8 theorems -/

/-- Disk for the C8 items: a single existing file. -/
def c8disk : Fs := fun p => if p = "src/a.ts" then some "x" else none

/-- C8 counterexample: nothing deduplicates the user-provided hint files, so
passing the same existing hint path twice yields two entries with the same
absolute path — the claimed "at most one entry per absolute path" fails. -/
theorem c8_duplicate_hint_counterexample :
    (analyzeRelevantFiles c8disk ["src/a.ts", "src/a.ts"] none).map (·.absolutePath) =
      ["src/a.ts", "src/a.ts"] ∧
    ¬ ((analyzeRelevantFiles c8disk ["src/a.ts", "src/a.ts"] none).map (·.absolutePath)).Nodup := by
  decide

/-- C8 (amended): provided the hint files are pairwise distinct, the result
of `analyzeRelevantFiles` has at most one entry per absolute path; the
result always consists of the hinted files first (in hint order, exactly the
hints that exist on disk) followed by service-suggested files in service
order, each of which exists on disk with content within the 50000-character
cap; and a malformed service response yields the hinted set alone. -/
theorem c8_analyzeRelevantFiles_spec (disk : Fs) (hintFiles : List String)
    (serviceResponse : Option (List Suggestion))
    (hnodup : hintFiles.Nodup) :
    ((analyzeRelevantFiles disk hintFiles serviceResponse).map (·.absolutePath)).Nodup ∧
    (∃ t, analyzeRelevantFiles disk hintFiles serviceResponse = seedHintFiles disk hintFiles ++ t ∧
      (∀ f ∈ t, disk f.absolutePath = some f.content ∧ f.content.length ≤ 50000) ∧
      (∀ suggested, serviceResponse = some suggested →
        List.Sublist (t.map (·.absolutePath)) (suggested.map (·.path)))) ∧
    analyzeRelevantFiles disk hintFiles none = seedHintFiles disk hintFiles := by
  have hseed : ((seedHintFiles disk hintFiles).map (·.absolutePath)).Nodup := by
    rw [seedHintFiles_paths]
    exact hnodup.filter _
  refine ⟨?_, ?_, rfl⟩
  · cases hr : serviceResponse with
    | none => exact hseed
    | some suggested =>
      exact addSuggested_foldl_nodup disk suggested _ hseed
  · cases hr : serviceResponse with
    | none => exact ⟨[], by simp [analyzeRelevantFiles], by simp, by simp [hr]⟩
    | some suggested =>
      rcases addSuggested_foldl disk suggested (seedHintFiles disk hintFiles) with
        ⟨t, ht, hsub, hprop⟩
      refine ⟨t, ht, hprop, ?_⟩
      intro sg hsg
      injection hsg with hh
      subst hh
      exact hsub

/-- Witness for C8 (amended) at concrete distinct hints and a concrete
suggestion list. -/
theorem c8_analyzeRelevantFiles_spec_witness :
    ((analyzeRelevantFiles c8disk ["src/a.ts"] (some [⟨"src/b.ts", "possible culprit"⟩])).map
      (·.absolutePath)).Nodup :=
  (c8_analyzeRelevantFiles_spec c8disk ["src/a.ts"] (some [⟨"src/b.ts", "possible culprit"⟩])
    (by decide)).1

/-! ### runTests process lifecycle (part_011, lines 23-119 and 221-232) -/

/-- Process-world state: whether the dev-server child process has been
spawned and whether its process tree has been killed. -/
structure ProcWorld where
  spawned : Bool
  killed : Bool
deriving DecidableEq, Repr

/-- The dev-server process is still running iff it was spawned and never
killed. -/
def serverStillRunning (w : ProcWorld) : Bool := w.spawned && !w.killed

/-- Model of `killProcessTree` (part_011, lines 221-232). -/
def killProcessTree (w : ProcWorld) : ProcWorld := { w with killed := true }

/-- Model of `waitForServer` (part_011, lines 87-119): resolves when the
server answers with a non-5xx status within the timeout window, otherwise
throws (the url/timeout interpolation of the source message is elided). -/
def waitForServer (ready : Bool) : Except String Unit :=
  if ready then Except.ok () else Except.error "Dev server did not become ready"

/-- Model of `startDevServer` (part_011, lines 60-85): the server process is
spawned FIRST, then readiness is awaited; a readiness timeout propagates as
an exception AFTER the spawn, so the spawned process escapes the function
without its handle ever being returned to the caller. -/
def startDevServer (ready : Bool) (w : ProcWorld) : Except String Nat × ProcWorld :=
  let w1 : ProcWorld := { w with spawned := true }
  match waitForServer ready with
  | Except.ok _ => (Except.ok 1, w1)
  | Except.error e => (Except.error e, w1)

/-- Outcome of the Playwright child process as supplied by the
environment. -/
structure PlaywrightOutcome where
  passed : Bool
deriving DecidableEq, Repr

/-- Model of `runTests` (part_011, lines 23-58).  The local `serverProcess`
starts out undefined and is assigned only when `startDevServer` RETURNS; the
`finally` block kills the process tree only when `serverProcess?.pid` is
set.  The returned world records the state of the dev-server process when
`runTests` returns or throws. -/
def runTests (startServer ready : Bool) (pw : PlaywrightOutcome) (w : ProcWorld) :
    Except String PlaywrightOutcome × ProcWorld :=
  if startServer then
    match startDevServer ready w with
    | (Except.ok _pid, w1) =>
      -- serverProcess := the returned handle; Playwright runs, artifacts
      -- are collected, and the finally block kills the process tree.
      (Except.ok pw, killProcessTree w1)
    | (Except.error e, w1) =>
      -- the exception propagates; serverProcess was never assigned, so the
      -- finally block's `serverProcess?.pid` guard skips the kill.
      (Except.error e, w1)
  else
    (Except.ok pw, w)

/-- C3: on the server-readiness-timeout path the spawned dev-server process
is NOT terminated — `startDevServer` spawns before awaiting readiness, the
timeout exception prevents the assignment to `serverProcess`, and the
`finally` block therefore skips the kill, leaving the process running after
`runTests` throws (on the successful-startup path the process IS killed,
so the leak is specific to the thrown-exception path). -/
theorem c3_server_survives_readiness_timeout :
    (runTests true false ⟨true⟩ ⟨false, false⟩).1 = Except.error "Dev server did not become ready" ∧
    serverStillRunning (runTests true false ⟨true⟩ ⟨false, false⟩).2 = true ∧
    serverStillRunning (runTests true true ⟨true⟩ ⟨false, false⟩).2 = false := by
  exact ⟨rfl, rfl, rfl⟩

/-! ### Configuration (src/src/lib/config.ts) -/

/-- The `AgentConfig` interface (config.ts, lines 4-19).  `browser` and
`videoResolution` are not read by any modelled component and are omitted.
`getConfig` (lines 21-44) populates `maxRetries` with
`config.get('maxRetries') || 3`, so a missing or zero setting becomes 3 and
every configuration produced by `getConfig` has `1 ≤ maxRetries`. -/
structure AgentConfig where
  anthropicApiKey : String
  baseUrl : String
  devServerCommand : String
  devServerPort : Nat
  headless : Bool
  maxRetries : Nat
  timeout : Nat
  claudeModel : String
  enableVisualAnalysis : Bool
  outputDir : String
  workspaceRoot : String
  codebaseContextFile : String
deriving DecidableEq, Repr

/-! ### Verification pipeline (part_009) -/

/-- Result of one test generation (`TestGenerationResult`,
test-generator.ts lines 13-17). -/
structure TestGenerationResult where
  testFilePath : String
  testCode : String
  testName : String
deriving DecidableEq, Repr

/-- Outcome of one execution of the browser test (`TestResult`, part_011
lines 6-15). -/
structure TestResult where
  passed : Bool
  videos : List String
  screenshots : List String
  traces : List String
  errorMessage : Option String
  duration : Nat
  stdout : String
  stderr : String
deriving DecidableEq, Repr

/-- The advisory visual-assessment report (`VisualReport`); only the fields
the modelled control flow reads are carried. -/
structure VisualReport where
  passed : Bool
  overallAssessment : String
deriving DecidableEq, Repr

/-- The `VerificationResult` interface (part_009, lines 14-20). -/
structure VerificationResult where
  testGeneration : TestGenerationResult
  testResult : TestResult
  visualReport : Option VisualReport
  retryCount : Nat
  overallPassed : Bool
deriving DecidableEq, Repr

/-- Environment supplying the outcomes of the external calls
`runVerificationPipeline` makes: `generateTest`, the `i`-th `runTests`
execution (0-indexed), the self-healing `regenerateTest` call made at a
given retry count, and `analyzeScreenshots`. -/
structure VerifEnv where
  genTest : Except String TestGenerationResult
  runTest : Nat → TestResult
  regen : Nat → Except String TestGenerationResult
  visual : Except String VisualReport

/-- The `while (true)` self-healing loop of `runVerificationPipeline`
(part_009, lines 51-88): run the test; on a pass break; otherwise increment
`retryCount`, break once `retryCount >= maxRetries` breaks the loop, else
regenerate the test (a regeneration failure breaks the loop) and continue.
`fuel` is the loop variant `maxRetries - retryCount` (passed as `maxRetries`
at entry); the loop's own break condition fires strictly before the fuel can
run out (`selfHealGo_fuel_irrelevant` makes this precise), and the
fuel-exhaustion arm mirrors a break.  Returns the final test generation, the
final test result, the final `retryCount`, and the number of `runTests`
executions performed. -/
def selfHealGo (runTest : Nat → TestResult)
    (regen : Nat → Except String TestGenerationResult) (maxRetries : Nat) :
    Nat → TestGenerationResult → Nat → Nat →
      TestGenerationResult × TestResult × Nat × Nat
  | 0, g, retryCount, execs =>
    -- Fuel exhausted: unreachable from the entry fuel (the `retryCount`
    -- break below fires first; see `selfHealGo_fuel_irrelevant`); behaves
    -- as the loop's break.
    if (runTest execs).passed then (g, runTest execs, retryCount, execs + 1)
    else (g, runTest execs, retryCount + 1, execs + 1)
  | fuel + 1, g, retryCount, execs =>
    if (runTest execs).passed then (g, runTest execs, retryCount, execs + 1)
    else if maxRetries ≤ retryCount + 1 then (g, runTest execs, retryCount + 1, execs + 1)
    else
      match regen (retryCount + 1) with
      | Except.error _ => (g, runTest execs, retryCount + 1, execs + 1)
      | Except.ok g2 => selfHealGo runTest regen maxRetries fuel g2 (retryCount + 1) (execs + 1)

/-- Phase 3 and result assembly of `runVerificationPipeline` (part_009,
lines 90-122): run the advisory visual analysis when enabled and screenshots
exist, swallowing its failure into "no report"; `overallPassed` is
`testResult.passed`.  Paired with the number of test executions. -/
def verifAssemble (config : AgentConfig) (env : VerifEnv)
    (r : TestGenerationResult × TestResult × Nat × Nat) :
    Except String VerificationResult × Nat :=
  (Except.ok
    { testGeneration := r.1
      testResult := r.2.1
      visualReport :=
        if config.enableVisualAnalysis ∧ 0 < r.2.1.screenshots.length then
          match env.visual with
          | Except.ok vr => some vr
          | Except.error _ => none
        else none
      retryCount := r.2.2.1
      overallPassed := r.2.1.passed },
    r.2.2.2)

/-- Model of `runVerificationPipeline` (part_009, lines 24-123): a failed
test generation is rethrown as `Test generation failed`; otherwise the
self-healing loop runs, then the advisory visual phase. -/
def runVerificationPipeline (config : AgentConfig) (env : VerifEnv) :
    Except String VerificationResult × Nat :=
  match env.genTest with
  | Except.error e => (Except.error ("Test generation failed: " ++ e), 0)
  | Except.ok g0 =>
    verifAssemble config env
      (selfHealGo env.runTest env.regen config.maxRetries config.maxRetries g0 0 0)

/-- The loop's behaviour does not depend on the fuel as long as the fuel
dominates the loop variant `maxRetries - retryCount - 1`: the counter-based
break always fires first, so the fuel-exhaustion arm is unreachable from the
entry fuel. -/
theorem selfHealGo_fuel_irrelevant (runTest : Nat → TestResult)
    (regen : Nat → Except String TestGenerationResult) (maxRetries : Nat) :
    ∀ (f1 f2 : Nat) (g : TestGenerationResult) (rc ex : Nat),
      maxRetries ≤ rc + f1 + 1 → maxRetries ≤ rc + f2 + 1 →
      selfHealGo runTest regen maxRetries f1 g rc ex =
        selfHealGo runTest regen maxRetries f2 g rc ex := by
  have hzero : ∀ (f2 : Nat) (g : TestGenerationResult) (rc ex : Nat),
      maxRetries ≤ rc + 1 →
      selfHealGo runTest regen maxRetries 0 g rc ex =
        selfHealGo runTest regen maxRetries f2 g rc ex := by
    intro f2 g rc ex hbr
    cases f2 with
    | zero => rfl
    | succ f2' =>
      by_cases htr : (runTest ex).passed
      · simp [selfHealGo, htr]
      · simp [selfHealGo, htr, hbr]
  intro f1
  induction f1 with
  | zero =>
    intro f2 g rc ex h1 h2
    exact hzero f2 g rc ex (by omega)
  | succ f1' ih =>
    intro f2 g rc ex h1 h2
    cases f2 with
    | zero => exact (hzero (f1' + 1) g rc ex (by omega)).symm
    | succ f2' =>
      by_cases htr : (runTest ex).passed
      · simp [selfHealGo, htr]
      · by_cases hbr : maxRetries ≤ rc + 1
        · simp [selfHealGo, htr, hbr]
        · cases hreg : regen (rc + 1) with
          | error e => simp [selfHealGo, htr, hbr, hreg]
          | ok g2 =>
            simp only [selfHealGo, if_neg htr, if_neg hbr, hreg]
            exact ih f2' g2 (rc + 1) (ex + 1) (by omega) (by omega)

/-- Per-attempt execution bound: starting below the retry limit, the loop
performs at most `maxRetries - retryCount` further test executions. -/
theorem selfHealGo_execs_le (runTest : Nat → TestResult)
    (regen : Nat → Except String TestGenerationResult) (maxRetries : Nat) :
    ∀ (fuel : Nat) (g : TestGenerationResult) (rc ex : Nat), rc < maxRetries →
      (selfHealGo runTest regen maxRetries fuel g rc ex).2.2.2 ≤ ex + (maxRetries - rc) := by
  intro fuel
  induction fuel with
  | zero =>
    intro g rc ex hrc
    by_cases htr : (runTest ex).passed
    · simp [selfHealGo, htr]
      omega
    · simp [selfHealGo, htr]
      omega
  | succ fuel' ih =>
    intro g rc ex hrc
    by_cases htr : (runTest ex).passed
    · simp [selfHealGo, htr]
      omega
    · by_cases hbr : maxRetries ≤ rc + 1
      · simp [selfHealGo, htr, hbr]
        omega
      · cases hreg : regen (rc + 1) with
        | error e =>
          simp [selfHealGo, htr, hbr, hreg]
          omega
        | ok g2 =>
          simp only [selfHealGo, if_neg htr, if_neg hbr, hreg]
          have := ih g2 (rc + 1) (ex + 1) (by omega)
          omega

/-- The loop's returned test result is the outcome of its final execution,
and at least one execution happens. -/
theorem selfHealGo_last_execution (runTest : Nat → TestResult)
    (regen : Nat → Except String TestGenerationResult) (maxRetries : Nat) :
    ∀ (fuel : Nat) (g : TestGenerationResult) (rc ex : Nat),
      ∃ n, (selfHealGo runTest regen maxRetries fuel g rc ex).2.2.2 = n + 1 ∧
        (selfHealGo runTest regen maxRetries fuel g rc ex).2.1 = runTest n ∧ ex ≤ n := by
  intro fuel
  induction fuel with
  | zero =>
    intro g rc ex
    by_cases htr : (runTest ex).passed
    · exact ⟨ex, by simp [selfHealGo, htr], by simp [selfHealGo, htr], le_refl ex⟩
    · exact ⟨ex, by simp [selfHealGo, htr], by simp [selfHealGo, htr], le_refl ex⟩
  | succ fuel' ih =>
    intro g rc ex
    by_cases htr : (runTest ex).passed
    · exact ⟨ex, by simp [selfHealGo, htr], by simp [selfHealGo, htr], le_refl ex⟩
    · by_cases hbr : maxRetries ≤ rc + 1
      · exact ⟨ex, by simp [selfHealGo, htr, hbr], by simp [selfHealGo, htr, hbr], le_refl ex⟩
      · cases hreg : regen (rc + 1) with
        | error e =>
          exact ⟨ex, by simp [selfHealGo, htr, hbr, hreg], by simp [selfHealGo, htr, hbr, hreg],
            le_refl ex⟩
        | ok g2 =>
          rcases ih g2 (rc + 1) (ex + 1) with ⟨n, hn1, hn2, hn3⟩
          refine ⟨n, ?_, ?_, by omega⟩
          · simp only [selfHealGo, if_neg htr, if_neg hbr, hreg]
            exact hn1
          · simp only [selfHealGo, if_neg htr, if_neg hbr, hreg]
            exact hn2

/-- One verification run executes the test at most `maxRetries` times (for
any positive retry limit; `getConfig` always produces a positive one). -/
theorem runVerificationPipeline_execs_le (config : AgentConfig) (env : VerifEnv)
    (h : 1 ≤ config.maxRetries) :
    (runVerificationPipeline config env).2 ≤ config.maxRetries := by
  unfold runVerificationPipeline
  cases hg : env.genTest with
  | error e => simp
  | ok g0 =>
    unfold verifAssemble
    dsimp only
    have := selfHealGo_execs_le env.runTest env.regen config.maxRetries config.maxRetries
      g0 0 0 (by omega)
    omega

/-- C6: whenever `runVerificationPipeline` returns a result, its
`overallPassed` equals `testResult.passed` of the last test execution; the
visual phase never changes the verdict (replacing the visual outcome —
including a throwing one — leaves `overallPassed`, `testResult`,
`retryCount` and the execution count unchanged); and a visual-analysis
failure yields `visualReport = none` rather than a pipeline failure. -/
theorem c6_overallPassed_driven_by_test (config : AgentConfig) (env : VerifEnv)
    (v : VerificationResult) (n : Nat)
    (h : runVerificationPipeline config env = (Except.ok v, n)) :
    v.overallPassed = v.testResult.passed ∧
    (∃ k, n = k + 1 ∧ v.testResult = env.runTest k) ∧
    (∀ vis : Except String VisualReport,
      (runVerificationPipeline config { env with visual := vis }).1.map
        (fun v2 => (v2.overallPassed, v2.testResult, v2.retryCount)) =
          Except.ok (v.overallPassed, v.testResult, v.retryCount) ∧
      (runVerificationPipeline config { env with visual := vis }).2 = n) ∧
    (∀ e : String, env.visual = Except.error e → v.visualReport = none) := by
  cases hg : env.genTest with
  | error e =>
    unfold runVerificationPipeline at h
    rw [hg] at h
    simp at h
  | ok g0 =>
    unfold runVerificationPipeline at h
    rw [hg] at h
    unfold verifAssemble at h
    rw [Prod.mk.injEq] at h
    obtain ⟨h1, h2⟩ := h
    rw [Except.ok.injEq] at h1
    subst h1
    subst h2
    refine ⟨rfl, ?_, ?_, ?_⟩
    · rcases selfHealGo_last_execution env.runTest env.regen config.maxRetries
        config.maxRetries g0 0 0 with ⟨k, hk1, hk2, _⟩
      exact ⟨k, hk1, hk2⟩
    · intro vis
      unfold runVerificationPipeline
      exact ⟨rfl, rfl⟩
    · intro e hvis
      dsimp only
      rw [hvis]
      split
      · rfl
      · rfl

/-! ### C6 witness inputs -/

/-- Concrete test generation for the C6 witness. -/
def c6gen : TestGenerationResult := ⟨"tests/generated/fix.spec.ts", "test code", "fix"⟩

/-- Concrete passing test result (no screenshots). -/
def c6pass : TestResult := ⟨true, [], [], [], none, 0, "", ""⟩

/-- Concrete configuration for the C6 witness. -/
def c6cfg : AgentConfig :=
  ⟨"key", "http://localhost:3000", "npm run dev", 3000, true, 3, 30000,
    "claude-sonnet-4-5-20250929", true, "test-results", "/ws", ""⟩

/-- Concrete verification environment whose visual analysis throws. -/
def c6env : VerifEnv :=
  ⟨Except.ok c6gen, fun _ => c6pass, fun _ => Except.error "no regen", Except.error "vision down"⟩

/-- The result the C6 witness run produces. -/
def c6v : VerificationResult := ⟨c6gen, c6pass, none, 0, true⟩

/-- Witness for C6 at a concrete run whose visual analysis throws. -/
theorem c6_overallPassed_driven_by_test_witness :
    c6v.overallPassed = c6v.testResult.passed ∧ c6v.visualReport = none :=
  ⟨(c6_overallPassed_driven_by_test c6cfg c6env c6v 1 rfl).1,
    (c6_overallPassed_driven_by_test c6cfg c6env c6v 1 rfl).2.2.2 "vision down" rfl⟩

/-! ### Fix-and-verify orchestrator (src/src/lib/test-generator.ts, lines 240-433) -/

/-- The `CodebaseContext` interface (part_008, lines 342-345). -/
structure CodebaseContext where
  content : String
  filePath : String
deriving DecidableEq, Repr

/-- One iteration record of the outer loop (`FixAttempt`, test-generator.ts
lines 249-254). -/
structure FixAttempt where
  attemptNumber : Nat
  fix : FixResult
  verification : Option VerificationResult
  error : Option String
deriving DecidableEq, Repr

/-- Terminal output of the orchestrator (`FixAndVerifyResult`,
test-generator.ts lines 256-263). -/
structure FixAndVerifyResult where
  succeeded : Bool
  attempts : List FixAttempt
  finalFix : Option FixResult
  finalVerification : Option VerificationResult
  relevantFiles : List RelevantFile
  codebaseContext : Option CodebaseContext
deriving DecidableEq, Repr

/-- Environment for one outer attempt: the outcome of `generateFix` (whose
real input includes the previous attempt's failure context — subsumed by
indexing the environment by attempt number), whether `applyFix` throws and
at which change index `fs.writeFileSync` fails, and the environment of the
nested verification pipeline. -/
structure AttemptEnv where
  genFix : Except String FixResult
  applyFailAt : Option Nat
  verif : VerifEnv

/-- Environment of a whole pipeline run: the (attempt-independent) relevant
files and codebase context gathered in phase 0, and one `AttemptEnv` per
attempt number. -/
structure PipelineEnv where
  relevantFiles : List RelevantFile
  codebaseContext : Option CodebaseContext
  attempt : Nat → AttemptEnv

/-- The `for (let attempt = 1; attempt <= maxAttempts; attempt++)` loop of
`runFixAndVerifyPipeline` (test-generator.ts, lines 298-432), with
`remaining` counting the attempts still allowed.  Carries the workspace
filesystem, the accumulated attempt records, and the total number of browser
test executions.  Phase order per attempt mirrors the source exactly:
generate fix (on error: record, continue), apply fix (on a throwing write:
the partially applied state REMAINS — the thrown exception discards the
partial backup, and the catch block records the attempt and continues
without rolling back), run verification (on error: rollback, record,
continue; on a failed verification: record, rollback, continue; on a passed
verification: record and return success immediately, keeping the fix
applied). -/
def pipelineLoop (config : AgentConfig) (env : PipelineEnv) :
    Nat → Nat → Fs → List FixAttempt → Nat → FixAndVerifyResult × Fs × Nat
  | _attemptNumber, 0, σ, acc, execs =>
    (⟨false, acc, none, none, env.relevantFiles, env.codebaseContext⟩, σ, execs)
  | attemptNumber, remaining + 1, σ, acc, execs =>
    match (env.attempt attemptNumber).genFix with
    | Except.error e =>
      pipelineLoop config env (attemptNumber + 1) remaining σ
        (acc ++ [⟨attemptNumber, ⟨[], "Fix generation error: " ++ e, "Failed"⟩, none, some e⟩])
        execs
    | Except.ok fix =>
      match (env.attempt attemptNumber).applyFailAt with
      | some k =>
        pipelineLoop config env (attemptNumber + 1) remaining (applyFixPartial fix k σ)
          (acc ++ [⟨attemptNumber, fix, none, some "Apply failed"⟩]) execs
      | none =>
        match runVerificationPipeline config (env.attempt attemptNumber).verif with
        | (Except.error e, n) =>
          pipelineLoop config env (attemptNumber + 1) remaining
            (rollbackFix (applyFix 0 fix σ).1 (applyFix 0 fix σ).2)
            (acc ++ [⟨attemptNumber, fix, none, some ("Verification error: " ++ e)⟩])
            (execs + n)
        | (Except.ok v, n) =>
          if v.overallPassed then
            (⟨true, acc ++ [⟨attemptNumber, fix, some v, none⟩], some fix, some v,
              env.relevantFiles, env.codebaseContext⟩,
              (applyFix 0 fix σ).2, execs + n)
          else
            pipelineLoop config env (attemptNumber + 1) remaining
              (rollbackFix (applyFix 0 fix σ).1 (applyFix 0 fix σ).2)
              (acc ++ [⟨attemptNumber, fix, some v, none⟩]) (execs + n)

/-- Model of `runFixAndVerifyPipeline` (test-generator.ts, lines 269-433).
The outer bound is `const maxAttempts = config.maxRetries` (line 274) — the
SAME configuration field that bounds the self-healing retries inside
`runVerificationPipeline`. -/
def runFixAndVerifyPipeline (config : AgentConfig) (env : PipelineEnv) (σ : Fs) :
    FixAndVerifyResult × Fs × Nat :=
  pipelineLoop config env 1 config.maxRetries σ [] 0

/-- The attempt history never exceeds the remaining attempt budget. -/
theorem pipelineLoop_attempts_le (config : AgentConfig) (env : PipelineEnv) :
    ∀ (remaining attemptNumber : Nat) (σ : Fs) (acc : List FixAttempt) (execs : Nat),
      (pipelineLoop config env attemptNumber remaining σ acc execs).1.attempts.length ≤
        acc.length + remaining := by
  intro remaining
  induction remaining with
  | zero =>
    intro attemptNumber σ acc execs
    simp [pipelineLoop]
  | succ remaining' ih =>
    intro attemptNumber σ acc execs
    show (pipelineLoop config env attemptNumber (remaining' + 1) σ acc execs).1.attempts.length ≤
      acc.length + (remaining' + 1)
    unfold pipelineLoop
    cases hgen : (env.attempt attemptNumber).genFix with
    | error e =>
      have := ih (attemptNumber + 1) σ
        (acc ++ [⟨attemptNumber, ⟨[], "Fix generation error: " ++ e, "Failed"⟩, none, some e⟩])
        execs
      simp at this ⊢
      omega
    | ok fix =>
      cases hap : (env.attempt attemptNumber).applyFailAt with
      | some k =>
        have := ih (attemptNumber + 1) (applyFixPartial fix k σ)
          (acc ++ [⟨attemptNumber, fix, none, some "Apply failed"⟩]) execs
        simp at this ⊢
        omega
      | none =>
        rcases hver : runVerificationPipeline config (env.attempt attemptNumber).verif with ⟨res, n⟩
        cases res with
        | error e =>
          have := ih (attemptNumber + 1)
            (rollbackFix (applyFix 0 fix σ).1 (applyFix 0 fix σ).2)
            (acc ++ [⟨attemptNumber, fix, none, some ("Verification error: " ++ e)⟩])
            (execs + n)
          simp at this ⊢
          omega
        | ok v =>
          by_cases hp : v.overallPassed
          · simp [hp]
          · have := ih (attemptNumber + 1)
              (rollbackFix (applyFix 0 fix σ).1 (applyFix 0 fix σ).2)
              (acc ++ [⟨attemptNumber, fix, some v, none⟩]) (execs + n)
            simp [hp] at this ⊢
            omega

/-- Total test executions across a run are bounded by (remaining attempts) ×
(inner retry limit). -/
theorem pipelineLoop_execs_le (config : AgentConfig) (env : PipelineEnv)
    (hm : 1 ≤ config.maxRetries) :
    ∀ (remaining attemptNumber : Nat) (σ : Fs) (acc : List FixAttempt) (execs : Nat),
      (pipelineLoop config env attemptNumber remaining σ acc execs).2.2 ≤
        execs + remaining * config.maxRetries := by
  intro remaining
  induction remaining with
  | zero =>
    intro attemptNumber σ acc execs
    simp [pipelineLoop]
  | succ remaining' ih =>
    intro attemptNumber σ acc execs
    have hmul : (remaining' + 1) * config.maxRetries =
        remaining' * config.maxRetries + config.maxRetries := by ring
    unfold pipelineLoop
    cases hgen : (env.attempt attemptNumber).genFix with
    | error e =>
      dsimp only
      have := ih (attemptNumber + 1) σ
        (acc ++ [⟨attemptNumber, ⟨[], "Fix generation error: " ++ e, "Failed"⟩, none, some e⟩])
        execs
      omega
    | ok fix =>
      dsimp only
      cases hap : (env.attempt attemptNumber).applyFailAt with
      | some k =>
        dsimp only
        have := ih (attemptNumber + 1) (applyFixPartial fix k σ)
          (acc ++ [⟨attemptNumber, fix, none, some "Apply failed"⟩]) execs
        omega
      | none =>
        dsimp only
        rcases hver : runVerificationPipeline config (env.attempt attemptNumber).verif with ⟨res, n⟩
        have hn : n ≤ config.maxRetries := by
          have hb := runVerificationPipeline_execs_le config (env.attempt attemptNumber).verif hm
          rw [hver] at hb
          exact hb
        cases res with
        | error e =>
          dsimp only
          have := ih (attemptNumber + 1)
            (rollbackFix (applyFix 0 fix σ).1 (applyFix 0 fix σ).2)
            (acc ++ [⟨attemptNumber, fix, none, some ("Verification error: " ++ e)⟩])
            (execs + n)
          omega
        | ok v =>
          dsimp only
          by_cases hp : v.overallPassed
          · simp only [if_pos hp]
            omega
          · simp only [if_neg hp]
            have := ih (attemptNumber + 1)
              (rollbackFix (applyFix 0 fix σ).1 (applyFix 0 fix σ).2)
              (acc ++ [⟨attemptNumber, fix, some v, none⟩]) (execs + n)
            omega

/-- Success invariant of the outer loop: when the run succeeds, the last
recorded attempt is the succeeding one, its number equals the history
length, and `finalFix`/`finalVerification` are exactly its fix and (passed)
verification. -/
theorem pipelineLoop_success (config : AgentConfig) (env : PipelineEnv) :
    ∀ (remaining attemptNumber : Nat) (σ : Fs) (acc : List FixAttempt) (execs : Nat),
      attemptNumber = acc.length + 1 →
      (pipelineLoop config env attemptNumber remaining σ acc execs).1.succeeded = true →
      ∃ att v,
        (pipelineLoop config env attemptNumber remaining σ acc execs).1.attempts.getLast? =
          some att ∧
        att.attemptNumber =
          (pipelineLoop config env attemptNumber remaining σ acc execs).1.attempts.length ∧
        (pipelineLoop config env attemptNumber remaining σ acc execs).1.finalFix = some att.fix ∧
        (pipelineLoop config env attemptNumber remaining σ acc execs).1.finalVerification =
          some v ∧
        att.verification = some v ∧
        v.overallPassed = true := by
  intro remaining
  induction remaining with
  | zero =>
    intro attemptNumber σ acc execs ha hsucc
    exact absurd hsucc (by simp [pipelineLoop])
  | succ remaining' ih =>
    intro attemptNumber σ acc execs ha hsucc
    unfold pipelineLoop at hsucc ⊢
    cases hgen : (env.attempt attemptNumber).genFix with
    | error e =>
      rw [hgen] at hsucc
      exact ih (attemptNumber + 1) σ
        (acc ++ [⟨attemptNumber, ⟨[], "Fix generation error: " ++ e, "Failed"⟩, none, some e⟩])
        execs (by simp [ha]) hsucc
    | ok fix =>
      rw [hgen] at hsucc
      cases hap : (env.attempt attemptNumber).applyFailAt with
      | some k =>
        rw [hap] at hsucc
        exact ih (attemptNumber + 1) (applyFixPartial fix k σ)
          (acc ++ [⟨attemptNumber, fix, none, some "Apply failed"⟩]) execs (by simp [ha]) hsucc
      | none =>
        rw [hap] at hsucc
        rcases hver : runVerificationPipeline config (env.attempt attemptNumber).verif with ⟨res, n⟩
        rw [hver] at hsucc
        cases res with
        | error e =>
          exact ih (attemptNumber + 1)
            (rollbackFix (applyFix 0 fix σ).1 (applyFix 0 fix σ).2)
            (acc ++ [⟨attemptNumber, fix, none, some ("Verification error: " ++ e)⟩])
            (execs + n) (by simp [ha]) hsucc
        | ok v =>
          dsimp only at hsucc ⊢
          by_cases hp : v.overallPassed
          · rw [if_pos hp] at hsucc ⊢
            refine ⟨⟨attemptNumber, fix, some v, none⟩, v, ?_, ?_, rfl, rfl, rfl, hp⟩
            · simp
            · simp [ha]
          · rw [if_neg hp] at hsucc ⊢
            exact ih (attemptNumber + 1)
              (rollbackFix (applyFix 0 fix σ).1 (applyFix 0 fix σ).2)
              (acc ++ [⟨attemptNumber, fix, some v, none⟩]) (execs + n) (by simp [ha]) hsucc

/-! ### C1, C4, C5, C10 claim theorems -/

/-- A failing test result used as an inert placeholder in environments whose
verification phase is never reached. -/
def failTest : TestResult := ⟨false, [], [], [], some "test failed", 0, "", ""⟩

/-- A verification environment that is never consulted. -/
def c1verif : VerifEnv :=
  ⟨Except.error "unused", fun _ => failTest, fun _ => Except.error "unused",
    Except.error "unused"⟩

/-- Configuration with a single outer attempt. -/
def c1cfg : AgentConfig :=
  ⟨"key", "http://localhost:3000", "npm run dev", 3000, true, 1, 30000,
    "claude-sonnet-4-5-20250929", true, "test-results", "/ws", ""⟩

/-- A two-file fix whose second write will fail. -/
def c1fix : FixResult :=
  ⟨[⟨"src/a.ts", "src/a.ts", "old1", "new1", ""⟩,
    ⟨"src/b.ts", "src/b.ts", "old2", "new2", ""⟩], "two-file fix", "patch"⟩

/-- Workspace before the C1 run. -/
def c1fs : Fs :=
  fun p => if p = "src/a.ts" then some "old1" else if p = "src/b.ts" then some "old2" else none

/-- Pipeline environment for C1: fix generation succeeds, but `applyFix`
throws while writing the change at index 1 (the second file). -/
def c1env : PipelineEnv :=
  ⟨[], none, fun _ => ⟨Except.ok c1fix, some 1, c1verif⟩⟩

/-- C1: the no-residue invariant FAILS on the code.  When `applyFix` throws
partway through (here: after writing the first of two files), the partial
backup is lost with the exception — the orchestrator's catch block records
the attempt and continues WITHOUT rolling back — so the run ends with
`succeeded = false` while `src/a.ts` still holds the partially applied
content `new1` instead of its pre-pipeline content `old1`. -/
theorem c1_partial_apply_leaves_residue :
    (runFixAndVerifyPipeline c1cfg c1env c1fs).1.succeeded = false ∧
    (runFixAndVerifyPipeline c1cfg c1env c1fs).2.1 "src/a.ts" = some "new1" ∧
    c1fs "src/a.ts" = some "old1" :=
  ⟨rfl, rfl, rfl⟩

/-- C4: with a positive retry limit (which `getConfig` guarantees), one
verification run executes the browser test at most `maxRetries` times, and
the orchestrator records at most `maxAttempts` (= `config.maxRetries`) fix
attempts. -/
theorem c4_bounded_retries (config : AgentConfig) (env : VerifEnv) (penv : PipelineEnv) (σ : Fs)
    (h : 1 ≤ config.maxRetries) :
    (runVerificationPipeline config env).2 ≤ config.maxRetries ∧
    (runFixAndVerifyPipeline config penv σ).1.attempts.length ≤ config.maxRetries := by
  refine ⟨runVerificationPipeline_execs_le config env h, ?_⟩
  have := pipelineLoop_attempts_le config penv config.maxRetries 1 σ [] 0
  simpa using this

/-- Pipeline environment whose every attempt fails at fix generation. -/
def c4penv : PipelineEnv :=
  ⟨[], none, fun _ => ⟨Except.error "generation down", none, c6env⟩⟩

/-- Witness for C4 at a concrete configuration with `maxRetries = 3`. -/
theorem c4_bounded_retries_witness :
    (runVerificationPipeline c6cfg c6env).2 ≤ c6cfg.maxRetries ∧
    (runFixAndVerifyPipeline c6cfg c4penv c1fs).1.attempts.length ≤ c6cfg.maxRetries :=
  c4_bounded_retries c6cfg c6env c4penv c1fs (by decide)

/-- C5: once an attempt's verification has `overallPassed = true`, the
pipeline returns success immediately: the last recorded attempt is the
succeeding one, the history length equals its attempt number (so no further
fix attempt was generated), and `finalFix`/`finalVerification` are exactly
that attempt's fix and verification. -/
theorem c5_single_success_short_circuit (config : AgentConfig) (env : PipelineEnv) (σ : Fs)
    (h : (runFixAndVerifyPipeline config env σ).1.succeeded = true) :
    ∃ att v,
      (runFixAndVerifyPipeline config env σ).1.attempts.getLast? = some att ∧
      att.attemptNumber = (runFixAndVerifyPipeline config env σ).1.attempts.length ∧
      (runFixAndVerifyPipeline config env σ).1.finalFix = some att.fix ∧
      (runFixAndVerifyPipeline config env σ).1.finalVerification = some v ∧
      att.verification = some v ∧ v.overallPassed = true :=
  pipelineLoop_success config env config.maxRetries 1 σ [] 0 rfl h

/-- A one-file fix for the C5 witness. -/
def c5fix : FixResult := ⟨[⟨"src/a.ts", "src/a.ts", "old1", "fixed", ""⟩], "sets the reset", "patch"⟩

/-- Pipeline environment for the C5 witness: fix generation and apply
succeed and the (shared, passing) verification environment reports
`overallPassed = true` on the first attempt. -/
def c5env : PipelineEnv :=
  ⟨[], none, fun _ => ⟨Except.ok c5fix, none, c6env⟩⟩

/-- Witness for C5 at a concrete run succeeding on attempt 1. -/
theorem c5_single_success_short_circuit_witness :
    ∃ att v,
      (runFixAndVerifyPipeline c6cfg c5env c1fs).1.attempts.getLast? = some att ∧
      att.attemptNumber = (runFixAndVerifyPipeline c6cfg c5env c1fs).1.attempts.length ∧
      (runFixAndVerifyPipeline c6cfg c5env c1fs).1.finalFix = some att.fix ∧
      (runFixAndVerifyPipeline c6cfg c5env c1fs).1.finalVerification = some v ∧
      att.verification = some v ∧ v.overallPassed = true :=
  c5_single_success_short_circuit c6cfg c5env c1fs rfl

/-- C10: the outer attempt bound IS the inner retry bound — the model of
`runFixAndVerifyPipeline` is definitionally the loop run with
`maxAttempts = config.maxRetries` (test-generator.ts line 274), the same
field `runVerificationPipeline` uses, so a single run executes the browser
test at most `config.maxRetries * config.maxRetries` times and the two
limits cannot be set independently. -/
theorem c10_shared_bound_squares (config : AgentConfig) (penv : PipelineEnv) (σ : Fs)
    (h : 1 ≤ config.maxRetries) :
    runFixAndVerifyPipeline config penv σ =
      pipelineLoop config penv 1 config.maxRetries σ [] 0 ∧
    (runFixAndVerifyPipeline config penv σ).2.2 ≤ config.maxRetries * config.maxRetries := by
  refine ⟨rfl, ?_⟩
  have := pipelineLoop_execs_le config penv h config.maxRetries 1 σ [] 0
  simpa using this

/-- Witness for C10 at a concrete configuration with `maxRetries = 3`. -/
theorem c10_shared_bound_squares_witness :
    (runFixAndVerifyPipeline c6cfg c4penv c1fs).2.2 ≤ c6cfg.maxRetries * c6cfg.maxRetries :=
  (c10_shared_bound_squares c6cfg c4penv c1fs (by decide)).2

end BugFixAgent
